import Mathlib

attribute [local semireducible] Rat.add Rat.sub Rat.mul Rat.inv

/-!
Verification of the HAR normalizer (`getRequestsFromHar`) and viewport fitter
(`zoomToElements`) of `src/js/custom/charts.js`.

The JavaScript numbers reaching the fitter are exact (integer millisecond
differences and small rationals), so finite values are modelled by `ℚ`; the
fitter additionally manipulates the IEEE special values produced by
`Math.max.apply(null, [])`, so fitter arithmetic runs over `JsNum`, rationals
extended with the two infinities and `NaN` (negative zero is collapsed onto
zero).  `new Date(s)` parsing is abstracted: timestamp fields hold the parsed
millisecond value directly.  Regex literals supplied through the tag
configuration are abstracted as boolean test functions, matching the spec's
description of the tag configuration as externally supplied.
-/

/-- JavaScript number values as used by the chart code: finite rationals plus
`Infinity`, `-Infinity` and `NaN`. -/
inductive JsNum where
  | nan : JsNum
  | negInf : JsNum
  | posInf : JsNum
  | fin : ℚ → JsNum
deriving DecidableEq

/-- The JavaScript `<` operator on numbers (`NaN` compares false). -/
def jsLt : JsNum → JsNum → Bool
  | .nan, _ => false
  | _, .nan => false
  | .negInf, .negInf => false
  | .negInf, _ => true
  | _, .negInf => false
  | .posInf, _ => false
  | .fin _, .posInf => true
  | .fin p, .fin q => decide (p < q)

/-- The JavaScript `<=` operator on numbers (`NaN` compares false). -/
def jsLe : JsNum → JsNum → Bool
  | .nan, _ => false
  | _, .nan => false
  | a, b => !(jsLt b a)

/-- Binary `Math.max` (`NaN` propagates). -/
def jsMax : JsNum → JsNum → JsNum
  | .nan, _ => .nan
  | _, .nan => .nan
  | a, b => if jsLt a b then b else a

/-- Binary `Math.min` (`NaN` propagates). -/
def jsMin : JsNum → JsNum → JsNum
  | .nan, _ => .nan
  | _, .nan => .nan
  | a, b => if jsLt a b then a else b

/-- JavaScript multiplication on numbers. -/
def jsMul : JsNum → JsNum → JsNum
  | .nan, _ => .nan
  | _, .nan => .nan
  | .fin p, .fin q => .fin (p * q)
  | .posInf, .posInf => .posInf
  | .posInf, .negInf => .negInf
  | .negInf, .posInf => .negInf
  | .negInf, .negInf => .posInf
  | .posInf, .fin q => if 0 < q then .posInf else if q < 0 then .negInf else .nan
  | .fin p, .posInf => if 0 < p then .posInf else if p < 0 then .negInf else .nan
  | .negInf, .fin q => if 0 < q then .negInf else if q < 0 then .posInf else .nan
  | .fin p, .negInf => if 0 < p then .negInf else if p < 0 then .posInf else .nan

/-- JavaScript division on numbers (with negative zero collapsed onto zero:
a finite value divided by an infinity yields `fin 0`, and division by
`fin 0` behaves as division by positive zero). -/
def jsDiv : JsNum → JsNum → JsNum
  | .nan, _ => .nan
  | _, .nan => .nan
  | .posInf, .posInf => .nan
  | .posInf, .negInf => .nan
  | .negInf, .posInf => .nan
  | .negInf, .negInf => .nan
  | .posInf, .fin q => if 0 ≤ q then .posInf else .negInf
  | .negInf, .fin q => if 0 ≤ q then .negInf else .posInf
  | .fin _, .posInf => .fin 0
  | .fin _, .negInf => .fin 0
  | .fin p, .fin q =>
      if q = 0 then (if p = 0 then .nan else if 0 < p then .posInf else .negInf)
      else .fin (p / q)

/-- `Math.max.apply(null, list)`: fold of binary `Math.max` starting from
`-Infinity`, which is also the result on an empty list. -/
def jsListMax (l : List JsNum) : JsNum := l.foldl jsMax JsNum.negInf

/-- `Math.round` on an exact rational input: round half toward positive
infinity. -/
def jsRound (q : ℚ) : ℤ := ⌊q + 1 / 2⌋

/-- Whether the second list starts with the first list (character-exact). -/
def startsWithList : List Char → List Char → Bool
  | _, [] => true
  | [], _ :: _ => false
  | c :: cs, p :: ps => c == p && startsWithList cs ps

/-- Whether `pat` occurs as a contiguous run inside the second list; this is
`s.indexOf(pat) > -1` of the source. -/
def hasSubList (pat : List Char) : List Char → Bool
  | [] => startsWithList [] pat
  | c :: cs => startsWithList (c :: cs) pat || hasSubList pat cs

/-- String-level wrapper for `hasSubList`. -/
def hasSub (pat s : String) : Bool := hasSubList pat.data s.data

/-- Spec-side notion of substring containment, written from the spec's words
("first substring match against the response MIME type"): `pat` occurs inside
`s` iff `s` splits as some left part, then `pat`, then some right part. -/
def ContainsStr (pat s : String) : Prop := ∃ l r, s.data = l ++ pat.data ++ r

/-- Index of the first occurrence of character `c`, counting from `i`. -/
def charIndexAux : List Char → Char → ℕ → Option ℕ
  | [], _, _ => none
  | c :: cs, t, i => if c == t then some i else charIndexAux cs t (i + 1)

/-- JavaScript `s.indexOf(c)`: first index of `c` in `s`, or `-1`. -/
def jsIndexOf (s : String) (c : Char) : ℤ :=
  match charIndexAux s.data c 0 with
  | some i => (i : ℤ)
  | none => -1

/-- JavaScript `s.substring(0, i)`: the argument is clamped into `[0, len]`,
so a negative `i` yields the empty string. -/
def jsSubstringUpTo (s : String) (i : ℤ) : String := ⟨s.data.take i.toNat⟩

/-- JavaScript `s.substring(i)`: the argument is clamped into `[0, len]`,
so a negative `i` yields the whole string. -/
def jsSubstringFrom (s : String) (i : ℤ) : String := ⟨s.data.drop i.toNat⟩

/-- The first replace of `urlAbbreviate`: strip a leading `http://` or
`https://`, together with a following `www.`, case-insensitively
(regex `^https?:\/\/(www\.)?` with the `i` flag). -/
def stripProtocolWww (l : List Char) : List Char :=
  let low := l.map Char.toLower
  if startsWithList low "https://".data then
    (if startsWithList (low.drop 8) "www.".data then l.drop 12 else l.drop 8)
  else if startsWithList low "http://".data then
    (if startsWithList (low.drop 7) "www.".data then l.drop 11 else l.drop 7)
  else l

/-- `urlAbbreviate` of the source: strip protocol/`www.`, then truncate at the
first `?` (querystring) and at the first `#` (fragment identifier). -/
def urlAbbreviate (url : String) : String :=
  ⟨((stripProtocolWww url.data).takeWhile (fun c => c != '?')).takeWhile (fun c => c != '#')⟩

/-- The five request types produced by `mimeToFiletype`. -/
inductive FileType where
  | image : FileType
  | script : FileType
  | style : FileType
  | font : FileType
  | other : FileType
deriving DecidableEq

/-- `mimeToFiletype` of the source: first substring match against the MIME
type, in the order image, script, css (as style), font, else other. -/
def mimeToFiletype (mimeType : String) : FileType :=
  if hasSub "image" mimeType then FileType.image
  else if hasSub "script" mimeType then FileType.script
  else if hasSub "css" mimeType then FileType.style
  else if hasSub "font" mimeType then FileType.font
  else FileType.other

/-- A normalized request record, with the fields built by
`getRequestsFromHar` (the reserved word `end` is written `«end»`). -/
structure RequestRecord where
  type : FileType
  originalUrl : String
  url : String
  domain : String
  path : String
  start : ℤ
  duration : ℚ
  «end» : ℤ
  tags : List (String × Bool)
deriving DecidableEq

/-- A configured tag rule: either a pattern tested against the record's
abbreviated `url` (the regex form, abstracted as a boolean test), or an
arbitrary filter function over the whole record. -/
inductive TagRule where
  | pattern : (String → Bool) → TagRule
  | predicate : (RequestRecord → Bool) → TagRule

/-- `getFileTags` of the source: evaluate every configured rule, binding
every configured tag name to the boolean outcome of its rule (`tags[tagName]
= Boolean(filter(entry))`). -/
def getFileTags (fileTags : List (String × TagRule)) (entry : RequestRecord) :
    List (String × Bool) :=
  fileTags.map (fun rule =>
    (rule.1,
      match rule.2 with
      | TagRule.pattern test => test entry.url
      | TagRule.predicate f => f entry))

/-- `pageTimings` of a HAR page. -/
structure PageTimings where
  onLoad : ℚ
deriving DecidableEq

/-- A HAR page: identifier, parsed navigation start (ms) and timings. -/
structure HarPage where
  id : String
  startedDateTime : ℤ
  pageTimings : PageTimings
deriving DecidableEq

/-- The request part of a HAR entry. -/
structure HarRequest where
  url : String
deriving DecidableEq

/-- The response content of a HAR entry; a missing MIME type is `none`
(the source turns it into `''` via `|| ''`). -/
structure HarContent where
  mimeType : Option String
deriving DecidableEq

/-- The response part of a HAR entry. -/
structure HarResponse where
  content : HarContent
deriving DecidableEq

/-- One HAR entry, with parsed `startedDateTime` in ms. -/
structure HarEntry where
  pageref : String
  startedDateTime : ℤ
  request : HarRequest
  response : HarResponse
  time : ℚ
deriving DecidableEq

/-- The `log` object of a HAR document. -/
structure HarLog where
  pages : List HarPage
  entries : List HarEntry
deriving DecidableEq

/-- A HAR document. -/
structure HarData where
  log : HarLog
deriving DecidableEq

/-- The per-entry mapping step of `getRequestsFromHar` (tags are attached by
a later pass, so they start out empty here). -/
def mkRequestRecord (startDate : ℤ) (entry : HarEntry) : RequestRecord :=
  let startTimeMs : ℤ := entry.startedDateTime - startDate
  let url := urlAbbreviate entry.request.url
  { type := mimeToFiletype ((entry.response.content.mimeType).getD "")
    originalUrl := entry.request.url
    url := url
    domain := jsSubstringUpTo url (jsIndexOf url '/')
    path := jsSubstringFrom url (jsIndexOf url '/')
    start := startTimeMs
    duration := entry.time
    «end» := jsRound ((startTimeMs : ℚ) + entry.time)
    tags := [] }

/-- The tag-attaching pass of `getRequestsFromHar`
(`item.tags = getFileTags(item)`). -/
def tagRecord (fileTags : List (String × TagRule)) (item : RequestRecord) :
    RequestRecord :=
  { item with tags := getFileTags fileTags item }

/-- `getRequestsFromHar` of the source.  The tag configuration
(`config.fileTags`) is passed explicitly.  The JavaScript function mutates
`harLog.entries` when more than one page is present, so the possibly updated
document is returned alongside the records; accessing `pages[0]` of a
pageless document throws, modelled by `none`. -/
def getRequestsFromHar (fileTags : List (String × TagRule)) (harData : HarData) :
    Option (List RequestRecord × HarData) :=
  match harData.log.pages with
  | [] => none
  | page0 :: rest =>
      let harData2 : HarData :=
        if 1 < (page0 :: rest).length then
          { log := { pages := harData.log.pages,
                     entries := harData.log.entries.filter
                       (fun entry => entry.pageref == page0.id) } }
        else harData
      let onLoad := page0.pageTimings.onLoad
      let items := harData2.log.entries.map (mkRequestRecord page0.startedDateTime)
      let items2 := items.map (fun item => tagRecord fileTags item)
      let items3 := items2.filter (fun item => decide ((item.start : ℚ) ≤ onLoad))
      some (items3, harData2)

/-- `config.itemHeight`. -/
def itemHeight : ℚ := 10

/-- `config.itemMargin`. -/
def itemMargin : ℚ := 2

/-- The transient `d.index = idx` assignment of `zoomToElements`: pair every
record with its position in the sequence. -/
def withIdxFrom (n : ℕ) : List RequestRecord → List (ℕ × RequestRecord)
  | [] => []
  | a :: as => (n, a) :: withIdxFrom (n + 1) as

/-- Records paired with their 0-based index. -/
def withIdx (l : List RequestRecord) : List (ℕ × RequestRecord) := withIdxFrom 0 l

/-- `getXCoordinate` of the source: the record's `end` value. -/
def getXCoordinate (d : ℕ × RequestRecord) : JsNum := JsNum.fin (d.2.«end» : ℚ)

/-- `getYCoordinate` of the source: `index * (itemHeight + itemMargin)`. -/
def getYCoordinate (d : ℕ × RequestRecord) : JsNum :=
  JsNum.fin ((d.1 : ℚ) * (itemHeight + itemMargin))

/-- `max.x`: maximum x coordinate over the whole sequence. -/
def fullMaxX (data : List RequestRecord) : JsNum :=
  jsListMax ((withIdx data).map getXCoordinate)

/-- `max.y`: maximum y coordinate over the whole sequence. -/
def fullMaxY (data : List RequestRecord) : JsNum :=
  jsListMax ((withIdx data).map getYCoordinate)

/-- `filteredMax.x`: maximum x coordinate over the matching subset. -/
def filteredMaxX (data : List RequestRecord) (f : ℕ × RequestRecord → Bool) : JsNum :=
  jsListMax (((withIdx data).filter f).map getXCoordinate)

/-- `filteredMax.y`: maximum y coordinate over the matching subset. -/
def filteredMaxY (data : List RequestRecord) (f : ℕ × RequestRecord → Bool) : JsNum :=
  jsListMax (((withIdx data).filter f).map getYCoordinate)

/-- The per-axis margin step of `zoomToElements`: when the filtered maximum is
strictly below the full maximum, expand it by `(1 + margin)` and clamp with
`Math.min` to the full maximum; otherwise leave it unchanged. -/
def marginClampAxis (filteredMax fullMax : JsNum) (margin : ℚ) : JsNum :=
  if jsLt filteredMax fullMax then
    jsMin (jsMul filteredMax (JsNum.fin (1 + margin))) fullMax
  else filteredMax

/-- `zoomToElements` of the source, stripped of its DOM write: the pair of
scale factors `(max.x / filteredMax.x, max.y / filteredMax.y)` it computes
and applies.  A missing filter defaults to match-everything, exactly as
`filter = filter || function () { return true; }`. -/
def zoomToElements (data : List RequestRecord)
    (filter : Option (ℕ × RequestRecord → Bool)) (margin : ℚ) : JsNum × JsNum :=
  let f := filter.getD (fun _ => true)
  (jsDiv (fullMaxX data) (marginClampAxis (filteredMaxX data f) (fullMaxX data) margin),
   jsDiv (fullMaxY data) (marginClampAxis (filteredMaxY data f) (fullMaxY data) margin))

/-- Maximum of a rational list (head-seeded fold; `0` on `[]`, unused there). -/
def maxFold : List ℚ → ℚ
  | [] => 0
  | a :: as => as.foldl max a

/-- A record with a given `end` value and neutral remaining fields, for
concrete fitter inputs. -/
def mkRec (e : ℤ) : RequestRecord :=
  { type := FileType.other, originalUrl := "", url := "", domain := "", path := "",
    start := 0, duration := 0, «end» := e, tags := [] }

/-- Predicate matching only the record at position 0. -/
def fIdx0 : ℕ × RequestRecord → Bool := fun d => d.1 == 0

/-- Whether a JavaScript number is finite. -/
def jsFinite : JsNum → Bool
  | .fin _ => true
  | _ => false

/-- The x coordinate as a rational (the `end` field). -/
def xVal (d : ℕ × RequestRecord) : ℚ := (d.2.«end» : ℚ)

/-- The y coordinate as a rational (`index * (itemHeight + itemMargin)`). -/
def yVal (d : ℕ × RequestRecord) : ℚ := (d.1 : ℚ) * (itemHeight + itemMargin)

/-- The record the normalizer produces from `harM`'s first-page entry. -/
def recM : RequestRecord :=
  { type := FileType.other, originalUrl := "a.com/x", url := "a.com/x",
    domain := "a.com", path := "/x", start := 10, duration := 5, «end» := 15, tags := [] }

/-- Single-page example document: navigation start 1000 ms, onLoad 2000 ms. -/
def pageEx : HarPage :=
  { id := "page_1", startedDateTime := 1000, pageTimings := { onLoad := 2000 } }

/-- Example entry: starts 500 ms after navigation start, lasts 200 ms. -/
def entryEx : HarEntry :=
  { pageref := "page_1", startedDateTime := 1500,
    request := { url := "https://www.example.com/a/b?x=1#y" },
    response := { content := { mimeType := some "application/javascript" } },
    time := 200 }

/-- Example single-page HAR document. -/
def harEx : HarData := { log := { pages := [pageEx], entries := [entryEx] } }

/-- Example tag configuration with one pattern rule. -/
def ftEx : List (String × TagRule) := [("a", TagRule.pattern (fun _ => true))]

/-- The record the normalizer produces from `harEx` under `ftEx`. -/
def recEx : RequestRecord :=
  { type := FileType.script,
    originalUrl := "https://www.example.com/a/b?x=1#y",
    url := "example.com/a/b", domain := "example.com", path := "/a/b",
    start := 500, duration := 200, «end» := 700, tags := [("a", true)] }

/-- First page of the two-page document. -/
def pageM1 : HarPage :=
  { id := "page_1", startedDateTime := 0, pageTimings := { onLoad := 1000 } }

/-- Second page of the two-page document. -/
def pageM2 : HarPage :=
  { id := "page_2", startedDateTime := 50, pageTimings := { onLoad := 1000 } }

/-- Entry belonging to the first page. -/
def entryM1 : HarEntry :=
  { pageref := "page_1", startedDateTime := 10,
    request := { url := "a.com/x" },
    response := { content := { mimeType := none } }, time := 5 }

/-- Entry belonging to the second page. -/
def entryM2 : HarEntry :=
  { pageref := "page_2", startedDateTime := 20,
    request := { url := "b.com/y" },
    response := { content := { mimeType := none } }, time := 5 }

/-- A two-page HAR document. -/
def harM : HarData :=
  { log := { pages := [pageM1, pageM2], entries := [entryM1, entryM2] } }

/-- `harM` with its entries list replaced by the first page's entries, the
value the normalizer leaves behind in the input document. -/
def harM' : HarData :=
  { log := { pages := [pageM1, pageM2], entries := [entryM1] } }

lemma jsLt_irrefl (a : JsNum) : jsLt a a = false := by
  cases a <;> simp [jsLt]

lemma jsMax_fin_fin (a b : ℚ) : jsMax (JsNum.fin a) (JsNum.fin b) = JsNum.fin (max a b) := by
  by_cases h : a < b
  · simp [jsMax, jsLt, h, max_eq_right h.le]
  · simp [jsMax, jsLt, h, max_eq_left (le_of_not_lt h)]

lemma jsMin_fin_fin (a b : ℚ) : jsMin (JsNum.fin a) (JsNum.fin b) = JsNum.fin (min a b) := by
  by_cases h : a < b
  · simp [jsMin, jsLt, h, min_eq_left h.le]
  · simp [jsMin, jsLt, h, min_eq_right (le_of_not_lt h)]

lemma jsDiv_fin_fin (p q : ℚ) (h : q ≠ 0) :
    jsDiv (JsNum.fin p) (JsNum.fin q) = JsNum.fin (p / q) := by
  simp [jsDiv, h]

lemma jsDiv_fin_self (q : ℚ) (h : q ≠ 0) :
    jsDiv (JsNum.fin q) (JsNum.fin q) = JsNum.fin 1 := by
  rw [jsDiv_fin_fin q q h, div_self h]

lemma jsDiv_fin_zero (p : ℚ) (h : 0 < p) :
    jsDiv (JsNum.fin p) (JsNum.fin 0) = JsNum.posInf := by
  simp [jsDiv, h, h.ne']

lemma foldl_jsMax_fin (l : List ℚ) (a : ℚ) :
    (l.map JsNum.fin).foldl jsMax (JsNum.fin a) = JsNum.fin (l.foldl max a) := by
  induction l generalizing a with
  | nil => rfl
  | cons b bs ih => simp only [List.map_cons, List.foldl_cons, jsMax_fin_fin, ih]

lemma jsListMax_map_fin (l : List ℚ) (h : l ≠ []) :
    jsListMax (l.map JsNum.fin) = JsNum.fin (maxFold l) := by
  match l, h with
  | a :: as, _ =>
    show (JsNum.fin a :: as.map JsNum.fin).foldl jsMax JsNum.negInf = _
    rw [List.foldl_cons, show jsMax JsNum.negInf (JsNum.fin a) = JsNum.fin a from rfl,
      foldl_jsMax_fin]
    rfl

lemma le_foldl_max (l : List ℚ) (a b : ℚ) (h : b ≤ a) : b ≤ l.foldl max a := by
  induction l generalizing a with
  | nil => exact h
  | cons c cs ih => exact ih (max a c) (h.trans (le_max_left a c))

lemma mem_le_foldl_max (l : List ℚ) (a b : ℚ) (h : b ∈ l) : b ≤ l.foldl max a := by
  induction l generalizing a with
  | nil => cases h
  | cons c cs ih =>
    rcases List.mem_cons.mp h with h' | h'
    · exact h' ▸ le_foldl_max cs (max a c) c (le_max_right a c)
    · exact ih (max a c) h'

lemma foldl_max_le (l : List ℚ) (a c : ℚ) (ha : a ≤ c) (h : ∀ b ∈ l, b ≤ c) :
    l.foldl max a ≤ c := by
  induction l generalizing a with
  | nil => exact ha
  | cons d ds ih =>
    exact ih (max a d) (max_le ha (h d (List.mem_cons_self d ds)))
      (fun b hb => h b (List.mem_cons_of_mem d hb))

lemma le_maxFold_of_mem (l : List ℚ) (b : ℚ) (h : b ∈ l) : b ≤ maxFold l := by
  match l, h with
  | a :: as, h =>
    rcases List.mem_cons.mp h with h' | h'
    · exact h' ▸ le_foldl_max as a a le_rfl
    · exact mem_le_foldl_max as a b h'

lemma maxFold_le (l : List ℚ) (c : ℚ) (hne : l ≠ []) (h : ∀ b ∈ l, b ≤ c) :
    maxFold l ≤ c := by
  match l, hne with
  | a :: as, _ =>
    exact foldl_max_le as a c (h a (List.mem_cons_self a as))
      (fun b hb => h b (List.mem_cons_of_mem a hb))

lemma map_getX (l : List (ℕ × RequestRecord)) :
    l.map getXCoordinate = (l.map xVal).map JsNum.fin := by
  rw [List.map_map]; rfl

lemma map_getY (l : List (ℕ × RequestRecord)) :
    l.map getYCoordinate = (l.map yVal).map JsNum.fin := by
  rw [List.map_map]; rfl

lemma withIdxFrom_ne_nil (n : ℕ) (a : RequestRecord) (l : List RequestRecord) :
    withIdxFrom n (a :: l) ≠ [] := by
  simp [withIdxFrom]

lemma withIdx_ne_nil (l : List RequestRecord) (h : l ≠ []) : withIdx l ≠ [] := by
  match l, h with
  | a :: as, _ => exact withIdxFrom_ne_nil 0 a as

lemma snd_mem_of_mem_withIdxFrom (n : ℕ) (l : List RequestRecord) (p : ℕ × RequestRecord)
    (h : p ∈ withIdxFrom n l) : p.2 ∈ l := by
  induction l generalizing n with
  | nil => cases h
  | cons a as ih =>
    rcases List.mem_cons.mp h with h' | h'
    · rw [h']; exact List.mem_cons_self a as
    · exact List.mem_cons_of_mem a (ih (n + 1) h')

lemma snd_mem_of_mem_withIdx (l : List RequestRecord) (p : ℕ × RequestRecord)
    (h : p ∈ withIdx l) : p.2 ∈ l :=
  snd_mem_of_mem_withIdxFrom 0 l p h

lemma fullMaxX_eq (data : List RequestRecord) (h : data ≠ []) :
    fullMaxX data = JsNum.fin (maxFold ((withIdx data).map xVal)) := by
  rw [fullMaxX, map_getX, jsListMax_map_fin]
  simp [withIdx_ne_nil data h]

lemma fullMaxY_eq (data : List RequestRecord) (h : data ≠ []) :
    fullMaxY data = JsNum.fin (maxFold ((withIdx data).map yVal)) := by
  rw [fullMaxY, map_getY, jsListMax_map_fin]
  simp [withIdx_ne_nil data h]

lemma filteredMaxX_eq (data : List RequestRecord) (f : ℕ × RequestRecord → Bool)
    (h : (withIdx data).filter f ≠ []) :
    filteredMaxX data f = JsNum.fin (maxFold (((withIdx data).filter f).map xVal)) := by
  rw [filteredMaxX, map_getX, jsListMax_map_fin]
  simp [h]

lemma filteredMaxY_eq (data : List RequestRecord) (f : ℕ × RequestRecord → Bool)
    (h : (withIdx data).filter f ≠ []) :
    filteredMaxY data f = JsNum.fin (maxFold (((withIdx data).filter f).map yVal)) := by
  rw [filteredMaxY, map_getY, jsListMax_map_fin]
  simp [h]

lemma zoomToElements_some (data : List RequestRecord) (f : ℕ × RequestRecord → Bool)
    (margin : ℚ) :
    zoomToElements data (some f) margin =
      (jsDiv (fullMaxX data) (marginClampAxis (filteredMaxX data f) (fullMaxX data) margin),
       jsDiv (fullMaxY data) (marginClampAxis (filteredMaxY data f) (fullMaxY data) margin)) :=
  rfl

lemma zoomToElements_none (data : List RequestRecord) (margin : ℚ) :
    zoomToElements data none margin = zoomToElements data (some (fun _ => true)) margin :=
  rfl

lemma marginClampAxis_self (m : JsNum) (margin : ℚ) : marginClampAxis m m margin = m := by
  simp [marginClampAxis, jsLt_irrefl]

lemma marginClampAxis_negInf (Q margin : ℚ) (hm : -1 < margin) :
    marginClampAxis JsNum.negInf (JsNum.fin Q) margin = JsNum.negInf := by
  have h1 : (0 : ℚ) < 1 + margin := by linarith
  simp [marginClampAxis, jsLt, jsMul, jsMin, h1]

lemma scale_ge_one (q Q m : ℚ) (hq0 : 0 ≤ q) (hle : q ≤ Q) (hQ0 : 0 < Q) (hm : 0 ≤ m) :
    jsLe (JsNum.fin 1) (jsDiv (JsNum.fin Q) (marginClampAxis (JsNum.fin q) (JsNum.fin Q) m)) =
      true := by
  by_cases hqQ : q < Q
  · rw [marginClampAxis, show jsLt (JsNum.fin q) (JsNum.fin Q) = true by simp [jsLt, hqQ],
      if_pos rfl, show jsMul (JsNum.fin q) (JsNum.fin (1 + m)) = JsNum.fin (q * (1 + m)) from rfl,
      jsMin_fin_fin]
    set d := min (q * (1 + m)) Q with hd
    have hd0 : 0 ≤ d := le_min (mul_nonneg hq0 (by linarith)) hQ0.le
    have hdQ : d ≤ Q := min_le_right _ _
    rcases eq_or_lt_of_le hd0 with h0 | h0
    · rw [← h0, jsDiv_fin_zero Q hQ0]
      rfl
    · rw [jsDiv_fin_fin Q d h0.ne']
      have h1 : 1 ≤ Q / d := (one_le_div h0).mpr hdQ
      simp [jsLe, jsLt, not_lt.mpr h1]
  · have hqQ' : q = Q := le_antisymm hle (not_lt.mp hqQ)
    rw [marginClampAxis, show jsLt (JsNum.fin q) (JsNum.fin Q) = false by simp [jsLt, hqQ],
      if_neg (by simp), hqQ', jsDiv_fin_self Q hQ0.ne']
    rfl

lemma scale_antitone (q Q m1 m2 : ℚ) (hq0 : 0 ≤ q) (hlt : q < Q) (hm0 : 0 ≤ m1)
    (hm12 : m1 ≤ m2) :
    jsLe (jsDiv (JsNum.fin Q) (marginClampAxis (JsNum.fin q) (JsNum.fin Q) m2))
      (jsDiv (JsNum.fin Q) (marginClampAxis (JsNum.fin q) (JsNum.fin Q) m1)) = true := by
  have hQ0 : 0 < Q := lt_of_le_of_lt hq0 hlt
  have hclamp : ∀ m : ℚ, marginClampAxis (JsNum.fin q) (JsNum.fin Q) m =
      JsNum.fin (min (q * (1 + m)) Q) := by
    intro m
    rw [marginClampAxis, show jsLt (JsNum.fin q) (JsNum.fin Q) = true by simp [jsLt, hlt],
      if_pos rfl, show jsMul (JsNum.fin q) (JsNum.fin (1 + m)) = JsNum.fin (q * (1 + m)) from rfl,
      jsMin_fin_fin]
  rw [hclamp m1, hclamp m2]
  rcases eq_or_lt_of_le hq0 with h0 | h0
  · have hz : ∀ m : ℚ, min (q * (1 + m)) Q = 0 := by
      intro m
      rw [← h0, zero_mul, min_eq_left hQ0.le]
    rw [hz m1, hz m2, jsDiv_fin_zero Q hQ0]
    rfl
  · have hd0 : ∀ m : ℚ, 0 ≤ m → 0 < min (q * (1 + m)) Q :=
      fun m hm => lt_min (mul_pos h0 (by linarith)) hQ0
    have hd1 := hd0 m1 hm0
    have hd2 := hd0 m2 (hm0.trans hm12)
    have hmono : min (q * (1 + m1)) Q ≤ min (q * (1 + m2)) Q :=
      min_le_min (by nlinarith) le_rfl
    rw [jsDiv_fin_fin Q _ hd1.ne', jsDiv_fin_fin Q _ hd2.ne']
    have h2 : Q / min (q * (1 + m2)) Q ≤ Q / min (q * (1 + m1)) Q :=
      div_le_div_of_nonneg_left hQ0.le hd1 hmono
    simp [jsLe, jsLt, not_lt.mpr h2]

lemma getRequestsFromHar_single (ft : List (String × TagRule)) (p : HarPage)
    (ents : List HarEntry) :
    getRequestsFromHar ft ⟨⟨[p], ents⟩⟩ =
      some (((ents.map (mkRequestRecord p.startedDateTime)).map (tagRecord ft)).filter
              (fun item => decide ((item.start : ℚ) ≤ p.pageTimings.onLoad)),
            ⟨⟨[p], ents⟩⟩) := by
  simp [getRequestsFromHar]

lemma getRequestsFromHar_multi (ft : List (String × TagRule)) (p q : HarPage)
    (rest : List HarPage) (ents : List HarEntry) :
    getRequestsFromHar ft ⟨⟨p :: q :: rest, ents⟩⟩ =
      some ((((ents.filter (fun e => e.pageref == p.id)).map
                (mkRequestRecord p.startedDateTime)).map (tagRecord ft)).filter
              (fun item => decide ((item.start : ℚ) ≤ p.pageTimings.onLoad)),
            ⟨⟨p :: q :: rest, ents.filter (fun e => e.pageref == p.id)⟩⟩) := by
  simp [getRequestsFromHar]

lemma mem_getRequestsFromHar (ft : List (String × TagRule)) (har : HarData)
    (items : List RequestRecord) (har' : HarData)
    (h : getRequestsFromHar ft har = some (items, har')) (r : RequestRecord)
    (hr : r ∈ items) :
    ∃ s e, r = tagRecord ft (mkRequestRecord s e) := by
  obtain ⟨⟨pgs, ents⟩⟩ := har
  match pgs with
  | [] => simp [getRequestsFromHar] at h
  | [p] =>
    rw [getRequestsFromHar_single] at h
    obtain ⟨h1, _⟩ := Prod.mk.injEq .. ▸ Option.some.injEq .. ▸ h
    subst h1
    obtain ⟨r', hr', hrr⟩ := List.mem_map.mp (List.mem_filter.mp hr).1
    obtain ⟨e, _, he⟩ := List.mem_map.mp hr'
    exact ⟨p.startedDateTime, e, by rw [← hrr, ← he]⟩
  | p :: q :: rest =>
    rw [getRequestsFromHar_multi] at h
    obtain ⟨h1, _⟩ := Prod.mk.injEq .. ▸ Option.some.injEq .. ▸ h
    subst h1
    obtain ⟨r', hr', hrr⟩ := List.mem_map.mp (List.mem_filter.mp hr).1
    obtain ⟨e, _, he⟩ := List.mem_map.mp hr'
    exact ⟨p.startedDateTime, e, by rw [← hrr, ← he]⟩

lemma substring_split (s : String) (i : ℤ) :
    jsSubstringUpTo s i ++ jsSubstringFrom s i = s := by
  obtain ⟨l⟩ := s
  show (⟨l.take i.toNat⟩ : String) ++ (⟨l.drop i.toNat⟩ : String) = ⟨l⟩
  rw [show ((⟨l.take i.toNat⟩ : String) ++ (⟨l.drop i.toNat⟩ : String)) =
      ⟨l.take i.toNat ++ l.drop i.toNat⟩ from rfl, List.take_append_drop]

lemma getFileTags_keys (ft : List (String × TagRule)) (e : RequestRecord) :
    (getFileTags ft e).map Prod.fst = ft.map Prod.fst := by
  simp only [getFileTags, List.map_map]
  rfl

lemma startsWithList_iff (s pat : List Char) :
    startsWithList s pat = true ↔ ∃ r, s = pat ++ r := by
  induction pat generalizing s with
  | nil =>
    simp [startsWithList]
  | cons p ps ih =>
    cases s with
    | nil => simp [startsWithList]
    | cons c cs =>
      rw [show startsWithList (c :: cs) (p :: ps) = (c == p && startsWithList cs ps) from rfl,
        Bool.and_eq_true, beq_iff_eq, ih]
      constructor
      · rintro ⟨hc, r, hr⟩
        exact ⟨r, by rw [hc, hr]; rfl⟩
      · rintro ⟨r, hr⟩
        rw [List.cons_append] at hr
        obtain ⟨hc, hcs⟩ := List.cons.injEq .. ▸ hr
        exact ⟨hc, r, hcs⟩

lemma hasSubList_iff (pat s : List Char) :
    hasSubList pat s = true ↔ ∃ l r, s = l ++ pat ++ r := by
  induction s with
  | nil =>
    rw [show hasSubList pat [] = startsWithList [] pat from rfl, startsWithList_iff]
    constructor
    · rintro ⟨r, hr⟩
      exact ⟨[], r, hr⟩
    · rintro ⟨l, r, hr⟩
      match l, hr with
      | [], hr => exact ⟨r, hr⟩
  | cons c cs ih =>
    rw [show hasSubList pat (c :: cs) = (startsWithList (c :: cs) pat || hasSubList pat cs)
      from rfl, Bool.or_eq_true, startsWithList_iff, ih]
    constructor
    · rintro (⟨r, hr⟩ | ⟨l, r, hr⟩)
      · exact ⟨[], r, by simpa using hr⟩
      · exact ⟨c :: l, r, by rw [hr]; rfl⟩
    · rintro ⟨l, r, hr⟩
      cases l with
      | nil => exact Or.inl ⟨r, by simpa using hr⟩
      | cons x l' =>
        rw [List.cons_append, List.cons_append] at hr
        obtain ⟨_, hcs⟩ := List.cons.injEq .. ▸ hr
        exact Or.inr ⟨l', r, by simpa using hcs⟩

lemma hasSub_iff (pat s : String) : hasSub pat s = true ↔ ContainsStr pat s := by
  rw [hasSub, hasSubList_iff]
  exact Iff.rfl

lemma mimeToFiletype_image_iff (m : String) :
    mimeToFiletype m = FileType.image ↔ hasSub "image" m = true := by
  unfold mimeToFiletype
  split_ifs with h1 h2 h3 h4 <;> simp_all

lemma mimeToFiletype_script_iff (m : String) :
    mimeToFiletype m = FileType.script ↔
      (hasSub "image" m = false ∧ hasSub "script" m = true) := by
  unfold mimeToFiletype
  split_ifs with h1 h2 h3 h4 <;> simp_all

lemma mimeToFiletype_style_iff (m : String) :
    mimeToFiletype m = FileType.style ↔
      (hasSub "image" m = false ∧ hasSub "script" m = false ∧ hasSub "css" m = true) := by
  unfold mimeToFiletype
  split_ifs with h1 h2 h3 h4 <;> simp_all

lemma mimeToFiletype_font_iff (m : String) :
    mimeToFiletype m = FileType.font ↔
      (hasSub "image" m = false ∧ hasSub "script" m = false ∧ hasSub "css" m = false ∧
        hasSub "font" m = true) := by
  unfold mimeToFiletype
  split_ifs with h1 h2 h3 h4 <;> simp_all

lemma mimeToFiletype_other_iff (m : String) :
    mimeToFiletype m = FileType.other ↔
      (hasSub "image" m = false ∧ hasSub "script" m = false ∧ hasSub "css" m = false ∧
        hasSub "font" m = false) := by
  unfold mimeToFiletype
  split_ifs with h1 h2 h3 h4 <;> simp_all

lemma not_containsStr_iff (pat s : String) :
    ¬ ContainsStr pat s ↔ hasSub pat s = false := by
  rw [← hasSub_iff]
  simp

lemma fullMaxY_pos (data : List RequestRecord) (h2 : 2 ≤ data.length) :
    ∃ M : ℚ, fullMaxY data = JsNum.fin M ∧ 0 < M := by
  match data, h2 with
  | a :: b :: t, _ =>
    have hne : (a :: b :: t : List RequestRecord) ≠ [] := by simp
    refine ⟨maxFold ((withIdx (a :: b :: t)).map yVal), fullMaxY_eq _ hne, ?_⟩
    have hmem : yVal (1, b) ∈ (withIdx (a :: b :: t)).map yVal := by
      apply List.mem_map_of_mem
      show (1, b) ∈ (0, a) :: (1, b) :: withIdxFrom 2 t
      exact List.mem_cons_of_mem _ (List.mem_cons_self _ _)
    have h12 : yVal (1, b) = 12 := by norm_num [yVal, itemHeight, itemMargin]
    have hM := le_maxFold_of_mem _ _ hmem
    rw [h12] at hM
    linarith

lemma zoom_identity (data : List RequestRecord) (f : ℕ × RequestRecord → Bool) (margin : ℚ)
    (hfil : (withIdx data).filter f = withIdx data) (hne : data ≠ [])
    (hX : fullMaxX data ≠ JsNum.fin 0) (h2 : 2 ≤ data.length) :
    zoomToElements data (some f) margin = (JsNum.fin 1, JsNum.fin 1) := by
  have hfx : filteredMaxX data f = fullMaxX data := by
    rw [filteredMaxX, hfil]; rfl
  have hfy : filteredMaxY data f = fullMaxY data := by
    rw [filteredMaxY, hfil]; rfl
  rw [zoomToElements_some, hfx, hfy, marginClampAxis_self, marginClampAxis_self]
  obtain ⟨Q, hQ⟩ : ∃ Q, fullMaxX data = JsNum.fin Q := ⟨_, fullMaxX_eq data hne⟩
  obtain ⟨M, hM, hMpos⟩ := fullMaxY_pos data h2
  rw [hQ, hM, jsDiv_fin_self Q (by rintro rfl; exact hX hQ), jsDiv_fin_self M hMpos.ne']

lemma maxFold_nonneg (l : List ℚ) (hne : l ≠ []) (h : ∀ b ∈ l, 0 ≤ b) : 0 ≤ maxFold l := by
  match l, hne with
  | a :: as, _ =>
    exact (h a (List.mem_cons_self a as)).trans
      (le_maxFold_of_mem _ a (List.mem_cons_self a as))

lemma maxFold_filter_le (l : List (ℕ × RequestRecord)) (f : ℕ × RequestRecord → Bool)
    (v : ℕ × RequestRecord → ℚ) (h : l.filter f ≠ []) :
    maxFold ((l.filter f).map v) ≤ maxFold (l.map v) := by
  apply maxFold_le _ _ (by simpa using h)
  intro b hb
  obtain ⟨p, hp, hpv⟩ := List.mem_map.mp hb
  exact hpv ▸ le_maxFold_of_mem _ _ (List.mem_map_of_mem v ((List.filter_sublist l).subset hp))

/-- C1: for a non-empty record sequence, a match-everything predicate (or no
predicate) and an arbitrary margin, the claimed identity result only holds
once the sequence has at least two records and the full maximum x value is
nonzero: under those hypotheses the fit is exactly `{scaleX: 1, scaleY: 1}`,
both with an always-true predicate and with no predicate supplied. -/
theorem claim_C1 (data : List RequestRecord) (margin : ℚ) (f : ℕ × RequestRecord → Bool)
    (h2 : 2 ≤ data.length) (hX : fullMaxX data ≠ JsNum.fin 0)
    (hf : ∀ p ∈ withIdx data, f p = true) :
    zoomToElements data (some f) margin = (JsNum.fin 1, JsNum.fin 1) ∧
    zoomToElements data none margin = (JsNum.fin 1, JsNum.fin 1) := by
  have hne : data ≠ [] := by
    rintro rfl; simp at h2
  refine ⟨zoom_identity data f margin (List.filter_eq_self.mpr hf) hne hX h2, ?_⟩
  rw [zoomToElements_none]
  exact zoom_identity data (fun _ => true) margin
    (List.filter_eq_self.mpr (by simp)) hne hX h2

/-- C1 counterexample: on the one-record sequence with `end = 100` and no
predicate, the fit is `(1, NaN)` (the single record sits at y coordinate `0`,
so the y scale is `0 / 0 = NaN`), not the claimed identity pair. -/
theorem claim_C1_cex :
    zoomToElements [mkRec 100] none 0 ≠ (JsNum.fin 1, JsNum.fin 1) := by
  decide

/-- C1 witness: the amended statement applied to two records with ends 5 and
10 and margin 7. -/
theorem claim_C1_witness :
    2 ≤ ([mkRec 5, mkRec 10] : List RequestRecord).length ∧
    fullMaxX [mkRec 5, mkRec 10] ≠ JsNum.fin 0 ∧
    zoomToElements [mkRec 5, mkRec 10] none 7 = (JsNum.fin 1, JsNum.fin 1) :=
  ⟨by decide, by decide,
    (claim_C1 [mkRec 5, mkRec 10] 7 (fun _ => true) (by decide) (by decide) (by decide)).2⟩

/-- C2: when the filtered maximum on the x axis is a nonnegative finite value
strictly below the full maximum, the x scale factor is antitone in the margin
(for margins `0 ≤ m1 ≤ m2`) and never drops below `1` in the JavaScript
ordering; the y axis is symmetric.  (Without the nonnegativity hypothesis the
original claim is false, see the counterexample.) -/
theorem claim_C2 (data : List RequestRecord) (f : ℕ × RequestRecord → Bool)
    (m1 m2 q Q : ℚ) (hm0 : 0 ≤ m1) (hm12 : m1 ≤ m2)
    (hq : filteredMaxX data f = JsNum.fin q) (hq0 : 0 ≤ q)
    (hQ : fullMaxX data = JsNum.fin Q) (hlt : q < Q) :
    jsLe (zoomToElements data (some f) m2).1 (zoomToElements data (some f) m1).1 = true ∧
    jsLe (JsNum.fin 1) (zoomToElements data (some f) m1).1 = true ∧
    jsLe (JsNum.fin 1) (zoomToElements data (some f) m2).1 = true := by
  have hQ0 : 0 < Q := lt_of_le_of_lt hq0 hlt
  have hfst : ∀ m : ℚ, (zoomToElements data (some f) m).1 =
      jsDiv (JsNum.fin Q) (marginClampAxis (JsNum.fin q) (JsNum.fin Q) m) := by
    intro m; rw [zoomToElements_some, hq, hQ]
  rw [hfst m1, hfst m2]
  exact ⟨scale_antitone q Q m1 m2 hq0 hlt hm0 hm12,
    scale_ge_one q Q m1 hq0 hlt.le hQ0 hm0,
    scale_ge_one q Q m2 hq0 hlt.le hQ0 (hm0.trans hm12)⟩

/-- C2 counterexample: with two records of ends `-10` and `-2` and a predicate
selecting only the first, the filtered x maximum `-10` is strictly below the
full maximum `-2`, yet already at margin `0` the x scale factor is `1/5`,
strictly below `1.0`. -/
theorem claim_C2_cex :
    jsLt (filteredMaxX [mkRec (-10), mkRec (-2)] fIdx0)
        (fullMaxX [mkRec (-10), mkRec (-2)]) = true ∧
    (zoomToElements [mkRec (-10), mkRec (-2)] (some fIdx0) 0).1 = JsNum.fin (1 / 5) ∧
    jsLt ((zoomToElements [mkRec (-10), mkRec (-2)] (some fIdx0) 0).1) (JsNum.fin 1) =
      true := by
  refine ⟨by decide, by decide, by decide⟩

/-- C2 witness: the amended statement applied to records with ends 5 and 10,
the predicate selecting the first record, and margins 0 and 1. -/
theorem claim_C2_witness :
    filteredMaxX [mkRec 5, mkRec 10] fIdx0 = JsNum.fin 5 ∧
    fullMaxX [mkRec 5, mkRec 10] = JsNum.fin 10 ∧
    jsLe (zoomToElements [mkRec 5, mkRec 10] (some fIdx0) 1).1
      (zoomToElements [mkRec 5, mkRec 10] (some fIdx0) 0).1 = true ∧
    jsLe (JsNum.fin 1) (zoomToElements [mkRec 5, mkRec 10] (some fIdx0) 0).1 = true :=
  ⟨by decide, by decide,
    (claim_C2 [mkRec 5, mkRec 10] fIdx0 0 1 5 10 (by norm_num) (by norm_num)
      (by decide) (by norm_num) (by decide) (by norm_num)).1,
    (claim_C2 [mkRec 5, mkRec 10] fIdx0 0 1 5 10 (by norm_num) (by norm_num)
      (by decide) (by norm_num) (by decide) (by norm_num)).2.1⟩

/-- C5: a predicate matching zero records does not produce a non-finite scale
pair; it produces the finite degenerate pair `(0, 0)` (JavaScript `-0`): the
empty maxima are `-Infinity`, survive the margin step for any margin above
`-1`, and dividing the finite full maxima by `-Infinity` yields (negative)
zero. -/
theorem claim_C5 (data : List RequestRecord) (f : ℕ × RequestRecord → Bool) (margin : ℚ)
    (hne : data ≠ []) (hf : ∀ p ∈ withIdx data, f p = false) (hm : -1 < margin) :
    zoomToElements data (some f) margin = (JsNum.fin 0, JsNum.fin 0) := by
  have hfil : (withIdx data).filter f = [] :=
    List.filter_eq_nil_iff.mpr (fun p hp => by simp [hf p hp])
  have hfx : filteredMaxX data f = JsNum.negInf := by
    rw [filteredMaxX, hfil]; rfl
  have hfy : filteredMaxY data f = JsNum.negInf := by
    rw [filteredMaxY, hfil]; rfl
  obtain ⟨Q, hQ⟩ : ∃ Q, fullMaxX data = JsNum.fin Q := ⟨_, fullMaxX_eq data hne⟩
  obtain ⟨M, hM⟩ : ∃ M, fullMaxY data = JsNum.fin M := ⟨_, fullMaxY_eq data hne⟩
  rw [zoomToElements_some, hfx, hfy, hQ, hM, marginClampAxis_negInf Q margin hm,
    marginClampAxis_negInf M margin hm]
  rfl

/-- C5 counterexample: on a one-record sequence with a never-matching
predicate and margin 0, both scale components are the finite value `0`
(so the result is degenerate but not non-finite as claimed). -/
theorem claim_C5_cex :
    zoomToElements [mkRec 100] (some (fun _ => false)) 0 = (JsNum.fin 0, JsNum.fin 0) ∧
    jsFinite (zoomToElements [mkRec 100] (some (fun _ => false)) 0).1 = true ∧
    jsFinite (zoomToElements [mkRec 100] (some (fun _ => false)) 0).2 = true := by
  refine ⟨by decide, by decide, by decide⟩

/-- C5 witness: the amended statement applied to one record with end 100, a
never-matching predicate and margin 0. -/
theorem claim_C5_witness :
    ([mkRec 100] : List RequestRecord) ≠ [] ∧
    zoomToElements [mkRec 100] (some (fun _ => false)) 0 = (JsNum.fin 0, JsNum.fin 0) :=
  ⟨by decide, claim_C5 [mkRec 100] (fun _ => false) 0 (by decide) (by decide) (by norm_num)⟩

/-- C10: with at least one matching record, a nonnegative margin, nonnegative
record end values and strictly positive full maxima on both axes, both scale
factors are at least `1` in the JavaScript ordering (where `Infinity >= 1`
holds; an all-zero filtered maximum produces an infinite magnification).
Without the nonnegativity hypothesis on ends the original claim fails, see
the counterexample. -/
theorem claim_C10 (data : List RequestRecord) (f : ℕ × RequestRecord → Bool) (margin : ℚ)
    (hmatch : (withIdx data).filter f ≠ []) (hm : 0 ≤ margin)
    (hends : ∀ r ∈ data, 0 ≤ r.«end»)
    (hx : jsLt (JsNum.fin 0) (fullMaxX data) = true)
    (hy : jsLt (JsNum.fin 0) (fullMaxY data) = true) :
    jsLe (JsNum.fin 1) (zoomToElements data (some f) margin).1 = true ∧
    jsLe (JsNum.fin 1) (zoomToElements data (some f) margin).2 = true := by
  have hne : data ≠ [] := by
    rintro rfl
    exact hmatch rfl
  have hfne : ((withIdx data).filter f).map xVal ≠ [] := by simpa using hmatch
  have hfne' : ((withIdx data).filter f).map yVal ≠ [] := by simpa using hmatch
  constructor
  · have hQeq := fullMaxX_eq data hne
    have hqeq := filteredMaxX_eq data f hmatch
    rw [hQeq] at hx
    have hQ0 : 0 < maxFold ((withIdx data).map xVal) := by simpa [jsLt] using hx
    have hq0 : 0 ≤ maxFold (((withIdx data).filter f).map xVal) := by
      apply maxFold_nonneg _ hfne
      intro b hb
      obtain ⟨p, hp, hpv⟩ := List.mem_map.mp hb
      have : p.2 ∈ data :=
        snd_mem_of_mem_withIdx data p ((List.filter_sublist (withIdx data)).subset hp)
      rw [← hpv]
      show (0 : ℚ) ≤ (p.2.«end» : ℚ)
      exact_mod_cast hends p.2 this
    have hqQ := maxFold_filter_le (withIdx data) f xVal hmatch
    rw [show (zoomToElements data (some f) margin).1 =
        jsDiv (fullMaxX data) (marginClampAxis (filteredMaxX data f) (fullMaxX data) margin)
      from rfl, hqeq, hQeq]
    exact scale_ge_one _ _ margin hq0 hqQ hQ0 hm
  · have hQeq := fullMaxY_eq data hne
    have hqeq := filteredMaxY_eq data f hmatch
    rw [hQeq] at hy
    have hQ0 : 0 < maxFold ((withIdx data).map yVal) := by simpa [jsLt] using hy
    have hq0 : 0 ≤ maxFold (((withIdx data).filter f).map yVal) := by
      apply maxFold_nonneg _ hfne'
      intro b hb
      obtain ⟨p, hp, hpv⟩ := List.mem_map.mp hb
      rw [← hpv]
      exact mul_nonneg (Nat.cast_nonneg p.1) (by norm_num [itemHeight, itemMargin])
    have hqQ := maxFold_filter_le (withIdx data) f yVal hmatch
    rw [show (zoomToElements data (some f) margin).2 =
        jsDiv (fullMaxY data) (marginClampAxis (filteredMaxY data f) (fullMaxY data) margin)
      from rfl, hqeq, hQeq]
    exact scale_ge_one _ _ margin hq0 hqQ hQ0 hm

/-- C10 counterexample: records with ends `-5` and `10`, the predicate
selecting the first: both full maxima are positive and one record matches,
yet the x scale factor is `-2`, not at least `1`. -/
theorem claim_C10_cex :
    (withIdx [mkRec (-5), mkRec 10]).filter fIdx0 ≠ [] ∧
    jsLt (JsNum.fin 0) (fullMaxX [mkRec (-5), mkRec 10]) = true ∧
    jsLt (JsNum.fin 0) (fullMaxY [mkRec (-5), mkRec 10]) = true ∧
    jsLe (JsNum.fin 1) (zoomToElements [mkRec (-5), mkRec 10] (some fIdx0) 0).1 = false := by
  refine ⟨by decide, by decide, by decide, by decide⟩

/-- C10 witness: the amended statement applied to records with ends 5 and 10,
the predicate selecting the first record and margin 0. -/
theorem claim_C10_witness :
    (withIdx [mkRec 5, mkRec 10]).filter fIdx0 ≠ [] ∧
    jsLe (JsNum.fin 1) (zoomToElements [mkRec 5, mkRec 10] (some fIdx0) 0).1 = true ∧
    jsLe (JsNum.fin 1) (zoomToElements [mkRec 5, mkRec 10] (some fIdx0) 0).2 = true :=
  ⟨by decide,
    (claim_C10 [mkRec 5, mkRec 10] fIdx0 0 (by decide) (by norm_num) (by decide)
      (by decide) (by decide)).1,
    (claim_C10 [mkRec 5, mkRec 10] fIdx0 0 (by decide) (by norm_num) (by decide)
      (by decide) (by decide)).2⟩

/-- C3: for every configured tag rule set, every record produced by the
normalizer carries exactly the configured tag names as keys of its `tags`
mapping, in configuration order, each bound to a boolean; no configured name
is omitted. -/
theorem claim_C3 (ft : List (String × TagRule)) (har : HarData) (items : List RequestRecord)
    (har' : HarData) (h : getRequestsFromHar ft har = some (items, har'))
    (r : RequestRecord) (hr : r ∈ items) :
    r.tags.map Prod.fst = ft.map Prod.fst ∧
    ∀ name ∈ ft.map Prod.fst, ∃ b : Bool, (name, b) ∈ r.tags := by
  obtain ⟨s, e, rfl⟩ := mem_getRequestsFromHar ft har items har' h r hr
  have hkeys : (tagRecord ft (mkRequestRecord s e)).tags.map Prod.fst = ft.map Prod.fst :=
    getFileTags_keys ft (mkRequestRecord s e)
  refine ⟨hkeys, ?_⟩
  intro name hname
  rw [← hkeys] at hname
  obtain ⟨pair, hpair, hfst⟩ := List.mem_map.mp hname
  obtain ⟨n, b⟩ := pair
  exact ⟨b, hfst ▸ hpair⟩

/-- C3 witness: the statement applied to the one-entry example document and
the one-rule configuration. -/
theorem claim_C3_witness :
    getRequestsFromHar ftEx harEx = some ([recEx], harEx) ∧
    recEx ∈ [recEx] ∧
    recEx.tags.map Prod.fst = ftEx.map Prod.fst :=
  ⟨rfl, List.mem_singleton.mpr rfl,
    (claim_C3 ftEx harEx [recEx] harEx rfl recEx (List.mem_singleton.mpr rfl)).1⟩

/-- C4: the normalizer is not a pure transformation on multi-page documents:
it replaces the input document's entries list with the first-page entries.
The amended statement: the pages list is never changed; on a document with a
single page the input document is returned unchanged; on a multi-page
document the returned document's entries are the input entries filtered to
the first page's identifier. -/
theorem claim_C4 (ft : List (String × TagRule)) (har : HarData) (p : HarPage)
    (rest : List HarPage) (hp : har.log.pages = p :: rest)
    (items : List RequestRecord) (har' : HarData)
    (h : getRequestsFromHar ft har = some (items, har')) :
    (rest = [] → har' = har) ∧
    har'.log.pages = har.log.pages ∧
    (rest ≠ [] → har'.log.entries =
      har.log.entries.filter (fun e => e.pageref == p.id)) := by
  obtain ⟨⟨pgs, ents⟩⟩ := har
  change pgs = p :: rest at hp
  subst hp
  cases rest with
  | nil =>
    rw [getRequestsFromHar_single] at h
    obtain ⟨h1, h2⟩ := Prod.mk.injEq .. ▸ Option.some.injEq .. ▸ h
    subst h2
    exact ⟨fun _ => rfl, rfl, fun hne => absurd rfl hne⟩
  | cons q rest' =>
    rw [getRequestsFromHar_multi] at h
    obtain ⟨h1, h2⟩ := Prod.mk.injEq .. ▸ Option.some.injEq .. ▸ h
    subst h2
    exact ⟨fun hc => absurd hc (List.cons_ne_nil q rest'), rfl, fun _ => rfl⟩

/-- C4 counterexample: on the two-page document `harM` the normalizer returns
a document whose entries list has been filtered to the first page, which
differs from the input document — the input's entries list is mutated, so the
transformation is not pure as claimed. -/
theorem claim_C4_cex :
    getRequestsFromHar [] harM = some ([recM], harM') ∧ harM' ≠ harM := by
  refine ⟨by rfl, by decide⟩

/-- C4 witness: the amended statement applied to the two-page document. -/
theorem claim_C4_witness :
    harM.log.pages = pageM1 :: [pageM2] ∧
    getRequestsFromHar [] harM = some ([recM], harM') ∧
    harM'.log.entries = harM.log.entries.filter (fun e => e.pageref == pageM1.id) :=
  ⟨rfl, rfl,
    (claim_C4 [] harM pageM1 [pageM2] rfl [recM] harM' rfl).2.2 (List.cons_ne_nil _ _)⟩

/-- C6: for a single-page document, the normalized sequence is exactly the
map of the record constructor over the entries whose start offset is at most
the page's onLoad offset, in original order; in particular its length is the
count of such entries. -/
theorem claim_C6 (ft : List (String × TagRule)) (har : HarData) (p : HarPage)
    (hp : har.log.pages = [p]) (items : List RequestRecord) (har' : HarData)
    (h : getRequestsFromHar ft har = some (items, har')) :
    items = (har.log.entries.filter
        (fun e => decide (((e.startedDateTime - p.startedDateTime : ℤ) : ℚ) ≤
          p.pageTimings.onLoad))).map
        (fun e => tagRecord ft (mkRequestRecord p.startedDateTime e)) ∧
    items.length = (har.log.entries.filter
        (fun e => decide (((e.startedDateTime - p.startedDateTime : ℤ) : ℚ) ≤
          p.pageTimings.onLoad))).length := by
  obtain ⟨⟨pgs, ents⟩⟩ := har
  change pgs = [p] at hp
  subst hp
  rw [getRequestsFromHar_single] at h
  obtain ⟨h1, _⟩ := Prod.mk.injEq .. ▸ Option.some.injEq .. ▸ h
  subst h1
  have heq : ((ents.map (mkRequestRecord p.startedDateTime)).map (tagRecord ft)).filter
      (fun item => decide ((item.start : ℚ) ≤ p.pageTimings.onLoad)) =
      (ents.filter
        (fun e => decide (((e.startedDateTime - p.startedDateTime : ℤ) : ℚ) ≤
          p.pageTimings.onLoad))).map
        (fun e => tagRecord ft (mkRequestRecord p.startedDateTime e)) := by
    rw [List.map_map, List.filter_map]
    rfl
  exact ⟨heq, by rw [heq, List.length_map]⟩

/-- C6 witness: the statement applied to the one-entry single-page example
document (its entry starts at offset 500, below the onLoad offset 2000, so it
is retained). -/
theorem claim_C6_witness :
    harEx.log.pages = [pageEx] ∧
    getRequestsFromHar ftEx harEx = some ([recEx], harEx) ∧
    [recEx] = (harEx.log.entries.filter
        (fun e => decide (((e.startedDateTime - pageEx.startedDateTime : ℤ) : ℚ) ≤
          pageEx.pageTimings.onLoad))).map
        (fun e => tagRecord ftEx (mkRequestRecord pageEx.startedDateTime e)) :=
  ⟨rfl, rfl, (claim_C6 ftEx harEx pageEx rfl [recEx] harEx rfl).1⟩

/-- C7: every normalized record satisfies `domain ++ path = url`: the domain
and path are the JavaScript `substring(0, indexOf('/'))` and
`substring(indexOf('/'))` of the abbreviated url, and this split is lossless
for every index value, including `-1` when the url contains no `/` (then
`domain = ""` and `path = url`). -/
theorem claim_C7 (ft : List (String × TagRule)) (har : HarData) (items : List RequestRecord)
    (har' : HarData) (h : getRequestsFromHar ft har = some (items, har'))
    (r : RequestRecord) (hr : r ∈ items) :
    r.domain ++ r.path = r.url := by
  obtain ⟨s, e, rfl⟩ := mem_getRequestsFromHar ft har items har' h r hr
  exact substring_split (urlAbbreviate e.request.url)
    (jsIndexOf (urlAbbreviate e.request.url) '/')

/-- C7 witness: the statement applied to the example document, whose record
splits as `"example.com" ++ "/a/b" = "example.com/a/b"`. -/
theorem claim_C7_witness :
    getRequestsFromHar ftEx harEx = some ([recEx], harEx) ∧
    recEx ∈ [recEx] ∧
    recEx.domain ++ recEx.path = recEx.url :=
  ⟨rfl, List.mem_singleton.mpr rfl,
    claim_C7 ftEx harEx [recEx] harEx rfl recEx (List.mem_singleton.mpr rfl)⟩

/-- C8: every normalized record satisfies `end = round(start + duration)`
exactly, with `start` the entry's parsed start minus the page navigation
start and `duration` the entry's `time` value. -/
theorem claim_C8 (ft : List (String × TagRule)) (har : HarData) (items : List RequestRecord)
    (har' : HarData) (h : getRequestsFromHar ft har = some (items, har'))
    (r : RequestRecord) (hr : r ∈ items) :
    r.«end» = jsRound ((r.start : ℚ) + r.duration) := by
  obtain ⟨s, e, rfl⟩ := mem_getRequestsFromHar ft har items har' h r hr
  rfl

/-- C8 witness: the statement applied to the example document, whose record
has `start = 500`, `duration = 200` and `end = 700`. -/
theorem claim_C8_witness :
    getRequestsFromHar ftEx harEx = some ([recEx], harEx) ∧
    recEx ∈ [recEx] ∧
    recEx.«end» = jsRound ((recEx.start : ℚ) + recEx.duration) :=
  ⟨rfl, List.mem_singleton.mpr rfl,
    claim_C8 ftEx harEx [recEx] harEx rfl recEx (List.mem_singleton.mpr rfl)⟩

/-- C9: the type classifier returns the first substring match in the priority
order image, script, css (as style), font, and `other` when no substring
matches; in particular `"image/png"` classifies as image,
`"application/javascript"` as script and the empty MIME type as other. -/
theorem claim_C9 :
    (∀ m : String,
      (mimeToFiletype m = FileType.image ↔ ContainsStr "image" m) ∧
      (mimeToFiletype m = FileType.script ↔
        ¬ ContainsStr "image" m ∧ ContainsStr "script" m) ∧
      (mimeToFiletype m = FileType.style ↔
        ¬ ContainsStr "image" m ∧ ¬ ContainsStr "script" m ∧ ContainsStr "css" m) ∧
      (mimeToFiletype m = FileType.font ↔
        ¬ ContainsStr "image" m ∧ ¬ ContainsStr "script" m ∧ ¬ ContainsStr "css" m ∧
          ContainsStr "font" m) ∧
      (mimeToFiletype m = FileType.other ↔
        ¬ ContainsStr "image" m ∧ ¬ ContainsStr "script" m ∧ ¬ ContainsStr "css" m ∧
          ¬ ContainsStr "font" m)) ∧
    mimeToFiletype "image/png" = FileType.image ∧
    mimeToFiletype "application/javascript" = FileType.script ∧
    mimeToFiletype "" = FileType.other := by
  refine ⟨fun m => ⟨?_, ?_, ?_, ?_, ?_⟩, by decide, by decide, by decide⟩
  · simp only [mimeToFiletype_image_iff, ← hasSub_iff]
  · simp only [mimeToFiletype_script_iff, ← hasSub_iff, Bool.not_eq_true]
  · simp only [mimeToFiletype_style_iff, ← hasSub_iff, Bool.not_eq_true]
  · simp only [mimeToFiletype_font_iff, ← hasSub_iff, Bool.not_eq_true]
  · simp only [mimeToFiletype_other_iff, ← hasSub_iff, Bool.not_eq_true]
